import Mathlib

/-!
Shallow embedding of elfrc.c (a resource compiler for ELF files) and proofs
about its manifest parser, layout engine and container emitter.

Machine-integer conventions: the host is assumed to be LP64 Linux, so
`sizeof(void *) * 8 = 64`, `unsigned int` is 32 bits (values are reduced
mod 2^32 where the C type forces it), `PATH_MAX = 4096`, and the ELF class
is ELFCLASS64 (`sizeof(ElfW(Sym)) = 24`).
-/

namespace Elfrc

/-- Resource kind from `struct Resource` in elfrc.c (`TEXT = 0`, `BINARY = 1`). -/
inductive ResType where
  | TEXT
  | BINARY
  deriving DecidableEq, Repr

/-- One node of the singly linked resource list (`struct Resource`, elfrc.c
lines 75-85).  The fields `ignore`, `payloadOffset` and `strtabOffset` of a
freshly malloc'ed node are never assigned by `registerResource`, so they are
modeled as `Option` values that are `none` until some code writes them. -/
structure Resource where
  type : ResType
  symbol : List Char
  symbolSize : Nat
  filename : String
  size : Nat
  ignore : Option Bool
  payloadOffset : Option Nat
  strtabOffset : Option Nat
  deriving DecidableEq, Repr

/-- The characters of a C string stored in a character buffer: everything up
to (excluding) the first NUL byte.  This is what `strcmp`, `strlen` and
`strdup` see when handed the buffer. -/
def cstrChars (l : List Char) : List Char := l.takeWhile (fun c => c ≠ '\x00')

/-- The C-string value of a buffer as a Lean `String`. -/
def cstr (l : List Char) : String := String.mk (cstrChars l)

/-- `strlen` of the C string stored in a buffer. -/
def cstrlen (l : List Char) : Nat := (cstrChars l).length

/-- `registerResource` (elfrc.c lines 583-610): appends one node at the tail
of the resource list.  `res->symbol = strdup(symbol)` copies up to the first
NUL; `res->symbolSize = strlen(symbol) + 1`; `res->size = filesize` is an
`unsigned int` assignment, incremented once more for TEXT resources.  The C
code does not assign `ignore`, `payloadOffset` or `strtabOffset`. -/
def registerResource (ty : ResType) (symbol : List Char) (fn : String)
    (filesize : Nat) (resources : List Resource) : List Resource :=
  resources ++
    [{ type := ty
       symbol := cstrChars symbol
       symbolSize := cstrlen symbol + 1
       filename := fn
       size := (filesize + (if ty = ResType.TEXT then 1 else 0)) % 2 ^ 32
       ignore := none
       payloadOffset := none
       strtabOffset := none }]

/-- An ELF symbol-table entry (`ElfW(Sym)`); field names follow elf.h. -/
structure ElfSym where
  st_name : Nat
  st_value : Nat
  st_size : Nat
  st_info : Nat
  st_other : Nat
  st_shndx : Nat
  deriving DecidableEq, Repr

def STB_LOCAL : Nat := 0

def STT_NOTYPE : Nat := 0

def STT_FILE : Nat := 4

def STT_SECTION : Nat := 3

def STV_DEFAULT : Nat := 0

def STN_UNDEF : Nat := 0

/-- elf.h: `SHN_ABS = 0xfff1`. -/
def SHN_ABS : Nat := 65521

/-- The `ELF_ST_INFO(type, bind)` macro as defined in elfrc.c line 69:
`((type) << 4) + ((bind) & 0xf)` (its two parameters are named the opposite
way round from elf.h's `ELF64_ST_INFO(bind, type)`, but all call sites in
elfrc.c pass the binding first, so the produced values are standard). -/
def ELF_ST_INFO (t b : Nat) : Nat := t * 16 + b % 16

/-- The static `symtabData` array (elfrc.c lines 108-180): the fixed local
symbols written before the per-resource symbols.  It has seven entries:
the undefined symbol, the source-file symbol, and one section symbol each
for .text, .data, .bss, .rodata and .comment. -/
def symtabData : List ElfSym :=
  [ { st_name := 0, st_value := 0, st_size := 0
      st_info := ELF_ST_INFO STB_LOCAL STT_NOTYPE
      st_other := STV_DEFAULT, st_shndx := STN_UNDEF },
    { st_name := 0, st_value := 0, st_size := 0
      st_info := ELF_ST_INFO STB_LOCAL STT_FILE
      st_other := STV_DEFAULT, st_shndx := SHN_ABS },
    { st_name := 0, st_value := 0, st_size := 0
      st_info := ELF_ST_INFO STB_LOCAL STT_SECTION
      st_other := STV_DEFAULT, st_shndx := 1 },
    { st_name := 0, st_value := 0, st_size := 0
      st_info := ELF_ST_INFO STB_LOCAL STT_SECTION
      st_other := STV_DEFAULT, st_shndx := 2 },
    { st_name := 0, st_value := 0, st_size := 0
      st_info := ELF_ST_INFO STB_LOCAL STT_SECTION
      st_other := STV_DEFAULT, st_shndx := 3 },
    { st_name := 0, st_value := 0, st_size := 0
      st_info := ELF_ST_INFO STB_LOCAL STT_SECTION
      st_other := STV_DEFAULT, st_shndx := 4 },
    { st_name := 0, st_value := 0, st_size := 0
      st_info := ELF_ST_INFO STB_LOCAL STT_SECTION
      st_other := STV_DEFAULT, st_shndx := 5 } ]

/-- `sizeof(ElfW(Sym))` for ELFCLASS64. -/
def symEntrySize : Nat := 24

/-- `sizeof(symtabData)`. -/
def symtabDataSize : Nat := symtabData.length * symEntrySize

/-- `padding(size)` from elfrc.c lines 362-367, with the global
`rodataHeader.sh_addralign` passed explicitly as `a`:
if `size == a` the result is 0, otherwise `((a - 1) & ~size) + 1`.
`size` is an `unsigned int`, so `~size` is its 32-bit complement
`2^32 - 1 - size`. -/
def padding (a : Nat) (size : Nat) : Nat :=
  if size % 2 ^ 32 = a then 0
  else ((a - 1) &&& (2 ^ 32 - 1 - size % 2 ^ 32)) + 1

/-- The alignment while loop in `patchHeaders` (elfrc.c lines 455-457):
`align = 1; while (align < sizeof(void *) * 8 && it->size > align) align <<= 1;`
with `sizeof(void *) * 8 = 64`.  Starting from `align = 1` the loop doubles
at most six times, so the fuel of 64 used below is ample. -/
def alignLoop (size : Nat) : Nat → Nat → Nat
  | 0, align => align
  | fuel + 1, align =>
      if align < 64 ∧ align < size then alignLoop size fuel (align * 2) else align

/-- Alignment required for one resource of the given size. -/
def alignFor (size : Nat) : Nat := alignLoop size 64 1

/-- The first loop of `patchHeaders` (elfrc.c lines 453-460): the maximum of
the per-resource alignments, starting from `maxalign = 1`. -/
def maxAlign (regs : List Resource) : Nat :=
  regs.foldl (fun m r => if m < alignFor r.size then alignFor r.size else m) 1

/-- Accumulated outputs of the second `patchHeaders` loop. -/
structure LoopOut where
  resources : List Resource
  payloadSize : Nat
  symtabSize : Nat
  strtabSize : Nat
  deriving DecidableEq, Repr

/-- The second loop of `patchHeaders` (elfrc.c lines 468-480): walks the
resource list once, caching `it->payloadOffset` and `it->strtabOffset` and
accumulating `payloadSize`, `symtabSize` and `strtabSize`; inter-resource
padding is added only when `it->next != 0`. -/
def layoutLoop (a : Nat) (p sy st : Nat) : List Resource → LoopOut
  | [] => { resources := [], payloadSize := p, symtabSize := sy, strtabSize := st }
  | r :: rest =>
      let r' := { r with payloadOffset := some p, strtabOffset := some st }
      let p' := p + r.size + (if rest.isEmpty then 0 else padding a r.size)
      let out := layoutLoop a p' (sy + symEntrySize) (st + r.symbolSize) rest
      { out with resources := r' :: out.resources }

/-- The section-header fields patched by `patchHeaders` (elfrc.c lines
421-490) that the claims are about: the updated resource list,
`rodataHeader.sh_addralign`, `rodataHeader.sh_size`, `symtabHeader.sh_size`
and `strtabHeader.sh_size`.  (The machine/ABI identification copied from the
reference ELF header and the absolute file offsets of the sections are not
modeled; no claim mentions them.) -/
structure Headers where
  resources : List Resource
  rodataAddralign : Nat
  rodataSize : Nat
  symtabSize : Nat
  strtabSize : Nat
  deriving DecidableEq, Repr

/-- `patchHeaders` (elfrc.c lines 421-490): computes the section-wide
alignment first (padding depends on it), then runs the layout loop with
`payloadSize = 0`, `symtabSize = sizeof(symtabData)`, `strtabSize = 1`. -/
def patchHeaders (regs : List Resource) : Headers :=
  let maxalign := maxAlign regs
  let out := layoutLoop maxalign 0 symtabDataSize 1 regs
  { resources := out.resources
    rodataAddralign := maxalign
    rodataSize := out.payloadSize
    symtabSize := out.symtabSize
    strtabSize := out.strtabSize }

/-- The NUL byte written for text terminators and padding. -/
def nulChar : Char := '\x00'

/-- `writeFiles` (elfrc.c lines 492-519).  `fopen fn = some bytes` models
`copyFileToFD` succeeding and copying the file's bytes at emission time;
`none` models its failure (open/read/write error), upon which the resource
is marked `ignore = TRUE` and nothing at all is written for it — payload,
text NUL and padding are all inside the success branch.  `a` is
`rodataHeader.sh_addralign` as patched by `patchHeaders`.  Returns the
updated resource list and the bytes written to the output. -/
def writeFiles (fopen : String → Option (List Char)) (a : Nat) :
    List Resource → List Resource × List Char
  | [] => ([], [])
  | r :: rest =>
      let out := writeFiles fopen a rest
      match fopen r.filename with
      | none => ({ r with ignore := some true } :: out.1, out.2)
      | some data =>
          ({ r with ignore := some false } :: out.1,
            data
              ++ (if r.type = ResType.TEXT then [nulChar] else [])
              ++ (if rest.isEmpty then [] else List.replicate (padding a r.size) nulChar)
              ++ out.2)

/-- The bytes the emitter produces for one resource: nothing when the file
cannot be copied, otherwise its data, a NUL for TEXT resources, and the
inter-resource padding when the resource is not the last one. -/
def resourceOutput (fopen : String → Option (List Char)) (a : Nat)
    (r : Resource) (isLast : Bool) : List Char :=
  match fopen r.filename with
  | none => []
  | some data =>
      data
        ++ (if r.type = ResType.TEXT then [nulChar] else [])
        ++ (if isLast then [] else List.replicate (padding a r.size) nulChar)

/-- Concatenation of the per-resource outputs, in list order. -/
def outputsOf (fopen : String → Option (List Char)) (a : Nat) :
    List Resource → List Char
  | [] => []
  | r :: rest => resourceOutput fopen a r rest.isEmpty ++ outputsOf fopen a rest

/-- The parser's state enum (elfrc.c line 627). -/
inductive PMode where
  | ReadType
  | ReadSymbol
  | ReadFilename
  deriving DecidableEq, Repr

/-- The fatal diagnostics of `parseResourceFileData`, with the line number
they print.  The end-of-input diagnostics for a record truncated before the
filename print no line number. -/
inductive PError where
  | newlineInType (lineno : Nat)
  | typeTooLong (lineno : Nat)
  | newlineInSymbol (lineno : Nat)
  | symbolTooLong (lineno : Nat)
  | statFailed (lineno : Nat) (fn : String)
  | filenameTooLong (lineno : Nat)
  | eofExpectingSymbol
  | eofExpectingFilename
  deriving DecidableEq, Repr

/-- The line number a diagnostic prints, if it prints one. -/
def PError.lineOf : PError → Option Nat
  | .newlineInType n => some n
  | .typeTooLong n => some n
  | .newlineInSymbol n => some n
  | .symbolTooLong n => some n
  | .statFailed n _ => some n
  | .filenameTooLong n => some n
  | .eofExpectingSymbol => none
  | .eofExpectingFilename => none

/-- `sizeof(curType)` (elfrc.c line 628). -/
def curTypeCap : Nat := 32

/-- `sizeof(curSymbol)` (elfrc.c line 630). -/
def curSymbolCap : Nat := 256

/-- `sizeof(curFilename)`: `PATH_MAX`, 4096 on the Linux host. -/
def PATH_MAX : Nat := 4096

/-- The persisted parser state: the `static` variables of
`parseResourceFileData` (elfrc.c lines 627-634) together with the global
resource registry it appends to.  The field buffers are the characters
stored so far (`curTypeLen` etc. are their lengths).  `error` records a
fatal diagnostic once one has been issued; the C function returns -1 at
that point and its caller stops feeding it, so a state carrying an error is
final.  `lineno` is a zero-initialized static. -/
structure PState where
  mode : PMode
  curType : List Char
  curSymbol : List Char
  curFilename : List Char
  lineno : Nat
  resources : List Resource
  error : Option PError
  deriving DecidableEq, Repr

/-- Initial values of the parser statics and the empty registry. -/
def initState : PState :=
  { mode := PMode.ReadType, curType := [], curSymbol := [], curFilename := []
    lineno := 0, resources := [], error := none }

/-- `int type = 0; if (strcmp(curType, "text") == 0) type = TEXT; else if
(strcmp(curType, "binary") == 0) type = BINARY;` — any other string leaves
the initial 0, i.e. TEXT (elfrc.c lines 637, 657-660, 725-728). -/
def kindOf (curType : List Char) : ResType :=
  if cstr curType = "text" then ResType.TEXT
  else if cstr curType = "binary" then ResType.BINARY
  else ResType.TEXT

/-- One character of the per-character loop of `parseResourceFileData`
(elfrc.c lines 666-745).  `env fn = some size` models `stat(fn, &sb)`
succeeding with `sb.st_size = size`; `none` models its failure.  A state
already carrying a fatal diagnostic is returned unchanged (the C function
has returned -1 and processes no further characters).  On a tab or newline
the terminating NUL write into the field buffer is not modeled as a store
(the buffer is exactly the stored characters); `termWrite` below exposes
the index of that write. -/
def parseStep (env : String → Option Nat) (s : PState) (c : Char) : PState :=
  if s.error.isSome then s
  else
    match s.mode with
    | PMode.ReadType =>
        if c = '\t' then
          let t := if cstr s.curType ≠ "text" ∧ cstr s.curType ≠ "binary"
                   then "binary".toList else s.curType
          { s with curType := t, mode := PMode.ReadSymbol, curSymbol := [] }
        else if c = '\n' then
          { s with error := some (PError.newlineInType s.lineno) }
        else if s.curType.length < curTypeCap then
          { s with curType := s.curType ++ [c] }
        else
          { s with error := some (PError.typeTooLong s.lineno) }
    | PMode.ReadSymbol =>
        if c = '\t' then
          { s with mode := PMode.ReadFilename, curFilename := [] }
        else if c = '\n' then
          { s with error := some (PError.newlineInSymbol s.lineno) }
        else if s.curSymbol.length < curSymbolCap then
          { s with curSymbol := s.curSymbol ++ [c] }
        else
          { s with error := some (PError.symbolTooLong s.lineno) }
    | PMode.ReadFilename =>
        if c = '\n' then
          match env (cstr s.curFilename) with
          | none => { s with error := some (PError.statFailed s.lineno (cstr s.curFilename)) }
          | some sz =>
              { s with
                  resources := registerResource (kindOf s.curType) s.curSymbol
                    (cstr s.curFilename) sz s.resources
                  mode := PMode.ReadType
                  curType := []
                  lineno := s.lineno + 1 }
        else if s.curFilename.length < PATH_MAX then
          { s with curFilename := s.curFilename ++ [c] }
        else
          { s with error := some (PError.filenameTooLong s.lineno) }

/-- `parseResourceFileData(buffer, len)` with a non-NULL buffer: the
per-character loop over the chunk. -/
def parseResourceFileData (env : String → Option Nat) (s : PState)
    (chunk : List Char) : PState :=
  chunk.foldl (parseStep env) s

/-- `parseResourceFileData(0, 0)`: the end-of-input signal (elfrc.c lines
639-664).  In ReadType or ReadSymbol state it is a fatal diagnostic; in
ReadFilename state the final record is finalized (stat, then register),
without touching `state` or `lineno`.  A state already carrying an error is
returned unchanged (`loadResources` never sends EOF after a chunk error). -/
def parseResourceEof (env : String → Option Nat) (s : PState) : PState :=
  if s.error.isSome then s
  else
    match s.mode with
    | PMode.ReadType => { s with error := some PError.eofExpectingSymbol }
    | PMode.ReadSymbol => { s with error := some PError.eofExpectingFilename }
    | PMode.ReadFilename =>
        match env (cstr s.curFilename) with
        | none => { s with error := some (PError.statFailed s.lineno (cstr s.curFilename)) }
        | some sz =>
            { s with
                resources := registerResource (kindOf s.curType) s.curSymbol
                  (cstr s.curFilename) sz s.resources }

/-- Feeding a sequence of chunks to the parser, one
`parseResourceFileData` call per chunk. -/
def feedChunks (env : String → Option Nat) (s : PState) : List (List Char) → PState
  | [] => s
  | c :: cs => feedChunks env (parseResourceFileData env s c) cs

/-- Result of a `loadResources` run: the registry on success, or the first
fatal chunk diagnostic. -/
inductive LoadResult where
  | ok (resources : List Resource)
  | err (e : PError)
  deriving DecidableEq, Repr

/-- `loadResources` (elfrc.c lines 750-782), with the sequence of successful
`read()` results passed as `chunks`.  A chunk whose parse returns -1 aborts
the run with that diagnostic.  After the last chunk the end-of-input signal
is sent, but — exactly as in the C code (line 779) — its return value is
discarded and the function returns `close(fd)`, i.e. success. -/
def loadResources (env : String → Option Nat) (chunks : List (List Char)) : LoadResult :=
  let s := feedChunks env initState chunks
  match s.error with
  | some e => LoadResult.err e
  | none =>
      let s2 := parseResourceEof env s
      LoadResult.ok s2.resources

/-- A whole parser run at the parser level: all chunks, then the
end-of-input signal. -/
def parseAll (env : String → Option Nat) (chunks : List (List Char)) : PState :=
  parseResourceEof env (feedChunks env initState chunks)

/-- The buffer index at which processing character `c` in state `s` writes a
field-terminating NUL, together with that buffer's capacity:
`curType[curTypeLen] = '\0'` on a tab in ReadType (elfrc.c line 670),
`curSymbol[curSymbolLen] = '\0'` on a tab in ReadSymbol (line 697),
`curFilename[curFilenameLen] = '\0'` on a newline in ReadFilename
(line 717).  `none` when no terminator is written by this character. -/
def termWrite (s : PState) (c : Char) : Option (Nat × Nat) :=
  if s.error.isSome then none
  else
    match s.mode with
    | PMode.ReadType => if c = '\t' then some (s.curType.length, curTypeCap) else none
    | PMode.ReadSymbol => if c = '\t' then some (s.curSymbol.length, curSymbolCap) else none
    | PMode.ReadFilename => if c = '\n' then some (s.curFilename.length, PATH_MAX) else none

/-- Line numbers count completed records: in a state with no diagnostic
`lineno` equals the registry length, and the line number printed by an
issued diagnostic equals the registry length at the time it was issued. -/
def LineInv (s : PState) : Prop :=
  (s.error = none → s.lineno = s.resources.length) ∧
  (∀ e, s.error = some e → ∀ n, PError.lineOf e = some n → n = s.resources.length)

/-- Sum of the sizes and inter-gap paddings of the first `i` resources. -/
def gapSumUpTo (a : Nat) (l : List Resource) (i : Nat) : Nat :=
  ((l.map (fun r => r.size + padding a r.size)).take i).sum

/-- Sum of the symbol-name lengths (NUL included) of the first `i` resources. -/
def strSumUpTo (l : List Resource) (i : Nat) : Nat :=
  ((l.map (fun r => r.symbolSize)).take i).sum

/-- All resource sizes plus all inter-resource paddings — no padding after
the last resource. -/
def sumWithGaps (a : Nat) : List Resource → Nat
  | [] => 0
  | [r] => r.size
  | r :: rest => r.size + padding a r.size + sumWithGaps a rest

/-- The seven values `align` can take: powers of two from 1 to 64. -/
def isAlignVal (a : Nat) : Prop :=
  a = 1 ∨ a = 2 ∨ a = 4 ∨ a = 8 ∨ a = 16 ∨ a = 32 ∨ a = 64

/-- A stat environment with no accessible files. -/
def noFiles : String → Option Nat := fun _ => none

def fnF : String := "f"

def fnG : String := "g"

/-- Two-resource registry used as a witness input: a 3-byte BINARY resource
named A, then a 1-byte TEXT resource named BB (stored size 2). -/
def witRegs : List Resource :=
  registerResource ResType.TEXT (['B', 'B']) fnG 1
    (registerResource ResType.BINARY (['A']) fnF 3 [])

/-- Registry with a zero-size resource followed by a one-byte resource:
both alignments are 1, and `padding 1 0 = 1`. -/
def c2regs : List Resource :=
  registerResource ResType.BINARY (['B']) fnG 1
    (registerResource ResType.BINARY (['A']) fnF 0 [])

/-- Registry for the late-failure counterexample: a 3-byte resource in file
f followed by a 1-byte resource in file g. -/
def c4regs : List Resource :=
  registerResource ResType.BINARY (['B']) fnG 1
    (registerResource ResType.BINARY (['A']) fnF 3 [])

/-- Emission environment in which file f has vanished but g holds one byte. -/
def c4fopen : String → Option (List Char) := fun fn =>
  if fn = fnG then some ['x'] else none

/-- Emission environment in which every file opens (as empty). -/
def allEmpty : String → Option (List Char) := fun _ => some []

end Elfrc

namespace Elfrc

lemma land_mask (k x : Nat) : (2 ^ k - 1) &&& x = x % 2 ^ k := by
  rw [Nat.and_comm]
  exact Nat.and_pow_two_sub_one_eq_mod x k

lemma isAlignVal_pow {a : Nat} (h : isAlignVal a) : ∃ k, k ≤ 6 ∧ a = 2 ^ k := by
  rcases h with h | h | h | h | h | h | h <;> subst h
  · exact ⟨0, by norm_num⟩
  · exact ⟨1, by norm_num⟩
  · exact ⟨2, by norm_num⟩
  · exact ⟨3, by norm_num⟩
  · exact ⟨4, by norm_num⟩
  · exact ⟨5, by norm_num⟩
  · exact ⟨6, by norm_num⟩

lemma isAlignVal_pos {a : Nat} (h : isAlignVal a) : 0 < a := by
  unfold isAlignVal at h
  omega

lemma alignLoop_val (size fuel : Nat) :
    ∀ align, isAlignVal align → isAlignVal (alignLoop size fuel align) := by
  induction fuel with
  | zero => intro align h; simpa [alignLoop] using h
  | succ fuel ih =>
      intro align h
      by_cases hc : align < 64 ∧ align < size
      · rw [show alignLoop size (fuel + 1) align = alignLoop size fuel (align * 2) from by
          simp [alignLoop, hc]]
        exact ih (align * 2) (by unfold isAlignVal at h ⊢; omega)
      · rw [show alignLoop size (fuel + 1) align = align from by simp [alignLoop, hc]]
        exact h

lemma alignFor_val (size : Nat) : isAlignVal (alignFor size) :=
  alignLoop_val size 64 1 (Or.inl rfl)

lemma maxAlign_val (regs : List Resource) : isAlignVal (maxAlign regs) := by
  have h : ∀ (l : List Resource) (acc : Nat), isAlignVal acc →
      isAlignVal (l.foldl (fun m r => if m < alignFor r.size then alignFor r.size else m) acc) := by
    intro l
    induction l with
    | nil => intro acc hacc; simpa using hacc
    | cons r rest ih =>
        intro acc hacc
        simp only [List.foldl_cons]
        apply ih
        by_cases hc : acc < alignFor r.size
        · simpa [hc] using alignFor_val r.size
        · simpa [hc] using hacc
  exact h regs 1 (Or.inl rfl)

lemma padding_eq_pow (k s : Nat) (hs : s < 2 ^ 32) (hk : k ≤ 6) :
    padding (2 ^ k) s = if s = 2 ^ k then 0 else 2 ^ k - s % 2 ^ k := by
  unfold padding
  rw [Nat.mod_eq_of_lt hs, land_mask]
  have hdvd : (2 ^ 32 - 1 - s) % 2 ^ k = 2 ^ k - 1 - s % 2 ^ k := by
    interval_cases k <;> omega
  rw [hdvd]
  have hpos : 0 < 2 ^ k := Nat.pos_pow_of_pos k (by norm_num)
  have hr : s % 2 ^ k < 2 ^ k := Nat.mod_lt _ hpos
  split <;> omega

lemma padding_le {a s : Nat} (ha : isAlignVal a) (hs : s < 2 ^ 32) : padding a s ≤ a := by
  obtain ⟨k, hk, rfl⟩ := isAlignVal_pow ha
  rw [padding_eq_pow k s hs hk]
  split
  · exact Nat.zero_le _
  · exact Nat.sub_le _ _

lemma padding_eq_top_iff {a s : Nat} (ha : isAlignVal a) (hs : s < 2 ^ 32) :
    padding a s = a ↔ s % a = 0 ∧ s ≠ a := by
  obtain ⟨k, hk, rfl⟩ := isAlignVal_pow ha
  rw [padding_eq_pow k s hs hk]
  have hpos : 0 < 2 ^ k := Nat.pos_pow_of_pos k (by norm_num)
  have hr : s % 2 ^ k < 2 ^ k := Nat.mod_lt _ hpos
  split
  · next h => subst h; simp [Nat.mod_self]; omega
  · next h => omega

lemma padding_mod {a s : Nat} (ha : isAlignVal a) (hs : s < 2 ^ 32) :
    (s + padding a s) % a = 0 := by
  obtain ⟨k, hk, rfl⟩ := isAlignVal_pow ha
  rw [padding_eq_pow k s hs hk]
  have hpos : 0 < 2 ^ k := Nat.pos_pow_of_pos k (by norm_num)
  have hr : s % 2 ^ k < 2 ^ k := Nat.mod_lt _ hpos
  split
  · next h => subst h; simp [Nat.mod_self]
  · next h =>
      have h2 : 2 ^ k - s % 2 ^ k ≤ 2 ^ k := Nat.sub_le _ _
      by_cases ht : s % 2 ^ k = 0
      · rw [ht, Nat.sub_zero, Nat.add_mod_right]
        exact ht
      · have h3 : 2 ^ k - s % 2 ^ k < 2 ^ k := by omega
        rw [Nat.add_mod, Nat.mod_eq_of_lt h3]
        rw [show s % 2 ^ k + (2 ^ k - s % 2 ^ k) = 2 ^ k from by omega, Nat.mod_self]

lemma sum_mod_zero (a : Nat) : ∀ L : List Nat, (∀ x ∈ L, x % a = 0) → L.sum % a = 0
  | [], _ => by simp
  | x :: L, h => by
      have hx : x % a = 0 := h x (by simp)
      have hL : L.sum % a = 0 := sum_mod_zero a L (fun y hy => h y (by simp [hy]))
      simp [List.sum_cons, Nat.add_mod, hx, hL]

lemma layoutLoop_cons (a p sy st : Nat) (r : Resource) (rest : List Resource) :
    layoutLoop a p sy st (r :: rest) =
      { layoutLoop a (p + r.size + (if rest.isEmpty then 0 else padding a r.size))
            (sy + symEntrySize) (st + r.symbolSize) rest with
        resources := { r with payloadOffset := some p, strtabOffset := some st } ::
          (layoutLoop a (p + r.size + (if rest.isEmpty then 0 else padding a r.size))
            (sy + symEntrySize) (st + r.symbolSize) rest).resources } := rfl

lemma layoutLoop_symtabSize (a : Nat) :
    ∀ (l : List Resource) (p sy st : Nat),
      (layoutLoop a p sy st l).symtabSize = sy + l.length * symEntrySize := by
  intro l
  induction l with
  | nil => intro p sy st; simp [layoutLoop]
  | cons r rest ih =>
      intro p sy st
      rw [layoutLoop_cons]
      simp only [List.length_cons]
      rw [ih]
      ring

lemma layoutLoop_strtabSize (a : Nat) :
    ∀ (l : List Resource) (p sy st : Nat),
      (layoutLoop a p sy st l).strtabSize = st + (l.map (fun r => r.symbolSize)).sum := by
  intro l
  induction l with
  | nil => intro p sy st; simp [layoutLoop]
  | cons r rest ih =>
      intro p sy st
      rw [layoutLoop_cons]
      simp only [List.map_cons, List.sum_cons]
      rw [ih]
      omega

lemma layoutLoop_payloadSize (a : Nat) :
    ∀ (l : List Resource) (p sy st : Nat),
      (layoutLoop a p sy st l).payloadSize = p + sumWithGaps a l := by
  intro l
  induction l with
  | nil => intro p sy st; simp [layoutLoop, sumWithGaps]
  | cons r rest ih =>
      intro p sy st
      cases rest with
      | nil =>
          rw [layoutLoop_cons]
          simp [layoutLoop, sumWithGaps]
      | cons r2 rest2 =>
          rw [layoutLoop_cons]
          simp only [List.isEmpty_cons, Bool.false_eq_true, if_false]
          rw [ih]
          simp only [sumWithGaps]
          omega

lemma layoutLoop_payloadOffset (a : Nat) :
    ∀ (l : List Resource) (p sy st i : Nat), i < l.length →
      ((layoutLoop a p sy st l).resources[i]?).map Resource.payloadOffset =
        some (some (p + gapSumUpTo a l i)) := by
  intro l
  induction l with
  | nil => intro p sy st i h; simp at h
  | cons hd tl ih =>
      intro p sy st i h
      cases i with
      | zero =>
          rw [layoutLoop_cons]
          simp [gapSumUpTo]
      | succ i =>
          have hi : i < tl.length := by simpa using h
          cases tl with
          | nil => simp at hi
          | cons hd2 tl2 =>
              rw [layoutLoop_cons]
              simp only [List.getElem?_cons_succ, List.isEmpty_cons, Bool.false_eq_true, if_false]
              rw [ih _ _ _ i hi]
              simp only [gapSumUpTo, List.map_cons, List.take_succ_cons, List.sum_cons,
                Option.some.injEq]
              omega

lemma layoutLoop_strtabOffset (a : Nat) :
    ∀ (l : List Resource) (p sy st i : Nat), i < l.length →
      ((layoutLoop a p sy st l).resources[i]?).map Resource.strtabOffset =
        some (some (st + strSumUpTo l i)) := by
  intro l
  induction l with
  | nil => intro p sy st i h; simp at h
  | cons hd tl ih =>
      intro p sy st i h
      cases i with
      | zero =>
          rw [layoutLoop_cons]
          simp [strSumUpTo]
      | succ i =>
          have hi : i < tl.length := by simpa using h
          cases tl with
          | nil => simp at hi
          | cons hd2 tl2 =>
              rw [layoutLoop_cons]
              simp only [List.getElem?_cons_succ, List.isEmpty_cons, Bool.false_eq_true, if_false]
              rw [ih _ _ _ i hi]
              simp only [strSumUpTo, List.map_cons, List.take_succ_cons, List.sum_cons,
                Option.some.injEq]
              omega

lemma patchHeaders_symtabSize (l : List Resource) :
    (patchHeaders l).symtabSize = symtabDataSize + l.length * symEntrySize := by
  simpa [patchHeaders] using layoutLoop_symtabSize (maxAlign l) l 0 symtabDataSize 1

lemma patchHeaders_strtabSize (l : List Resource) :
    (patchHeaders l).strtabSize = 1 + (l.map (fun r => r.symbolSize)).sum := by
  simpa [patchHeaders] using layoutLoop_strtabSize (maxAlign l) l 0 symtabDataSize 1

end Elfrc

namespace Elfrc

lemma sumTake_succ : ∀ (L : List Nat) (i : Nat) (h : i < L.length),
    (L.take (i + 1)).sum = (L.take i).sum + L[i]
  | [], i, h => by simp at h
  | x :: L, 0, _ => by simp
  | x :: L, i + 1, h => by
      have hi : i < L.length := by simpa using h
      simp only [List.take_succ_cons, List.sum_cons, List.getElem_cons_succ]
      rw [sumTake_succ L i hi]
      omega

lemma sumTake_lt (L : List Nat) (hpos : ∀ x ∈ L, 0 < x) :
    ∀ j, j ≤ L.length → ∀ i, i < j → (L.take i).sum < (L.take j).sum := by
  intro j
  induction j with
  | zero => intro _ i hi; exact absurd hi (Nat.not_lt_zero i)
  | succ j ihj =>
      intro hj i hi
      have hjlen : j < L.length := hj
      have hstep : (L.take (j + 1)).sum = (L.take j).sum + L[j] := sumTake_succ L j hjlen
      have hgt : 0 < L[j] := hpos _ (List.getElem_mem hjlen)
      rcases Nat.lt_succ_iff_lt_or_eq.mp hi with h | h
      · have := ihj (Nat.le_of_lt hjlen) i h
        omega
      · subst h
        omega

/-- C2, counterexample to the claimed range: in the registry whose resource
sizes are [0, 1] the section-wide alignment is 1, and the padding computed
between the two resources is `padding 1 0 = 1`, which is outside the claimed
range `[0, sectionAlignment - 1] = [0, 0]`. -/
theorem padding_range_counterexample :
    maxAlign c2regs = 1 ∧
    (c2regs.map (fun r => r.size)) = [0, 1] ∧
    padding (maxAlign c2regs) 0 = 1 ∧
    maxAlign c2regs - 1 < padding (maxAlign c2regs) 0 := by
  decide

/-- C2 (amended): for every finalized resource registry (sizes being
`unsigned int` values), the padding computed between two consecutive
resources lies in the range [0, sectionAlignment]; it equals
sectionAlignment exactly when the preceding resource's size is a multiple of
the alignment other than the alignment itself; every resource starts at a
payload offset that is a multiple of the section-wide alignment stored in
the payload section descriptor (so each gap rounds the running payload
length up to such a multiple); and no padding is placed after the last
resource (the declared payload size adds gaps only between resources). -/
theorem padding_bounds (regs : List Resource) (hsz : ∀ r ∈ regs, r.size < 2 ^ 32) :
    (patchHeaders regs).rodataAddralign = maxAlign regs ∧
    (∀ r ∈ regs,
      padding (maxAlign regs) r.size ≤ maxAlign regs ∧
      (padding (maxAlign regs) r.size = maxAlign regs ↔
        r.size % maxAlign regs = 0 ∧ r.size ≠ maxAlign regs)) ∧
    (∀ i, i ≤ regs.length → gapSumUpTo (maxAlign regs) regs i % maxAlign regs = 0) ∧
    (patchHeaders regs).rodataSize = sumWithGaps (maxAlign regs) regs := by
  have ha := maxAlign_val regs
  refine ⟨rfl, ?_, ?_, ?_⟩
  · intro r hr
    exact ⟨padding_le ha (hsz r hr), padding_eq_top_iff ha (hsz r hr)⟩
  · intro i _
    unfold gapSumUpTo
    apply sum_mod_zero
    intro x hx
    have hx2 : x ∈ regs.map (fun r => r.size + padding (maxAlign regs) r.size) :=
      List.mem_of_mem_take hx
    obtain ⟨r, hr, rfl⟩ := List.mem_map.mp hx2
    exact padding_mod ha (hsz r hr)
  · simpa [patchHeaders] using layoutLoop_payloadSize (maxAlign regs) regs 0 symtabDataSize 1

/-- Witness for `padding_bounds` at the concrete two-resource registry. -/
theorem padding_bounds_witness :
    (patchHeaders witRegs).rodataAddralign = maxAlign witRegs ∧
    gapSumUpTo (maxAlign witRegs) witRegs 1 % maxAlign witRegs = 0 ∧
    (patchHeaders witRegs).rodataSize = sumWithGaps (maxAlign witRegs) witRegs :=
  ⟨(padding_bounds witRegs (by decide)).1,
   (padding_bounds witRegs (by decide)).2.2.1 1 (by decide),
   (padding_bounds witRegs (by decide)).2.2.2⟩

/-- C3: for every non-empty registry, after `patchHeaders` the
`payloadOffset` cached in the i-th resource equals the sum of the sizes and
inter-gap paddings of resources 0..i-1 (the 0-th resource at offset 0), and
`rodataHeader.sh_size` equals the total of all resource sizes plus all
inter-resource paddings. -/
theorem payload_layout (regs : List Resource) (hne : regs ≠ []) :
    (∀ i, i < regs.length →
      (((patchHeaders regs).resources[i]?).map Resource.payloadOffset) =
        some (some (gapSumUpTo (maxAlign regs) regs i))) ∧
    (patchHeaders regs).rodataSize = sumWithGaps (maxAlign regs) regs := by
  constructor
  · intro i hi
    simpa [patchHeaders] using
      layoutLoop_payloadOffset (maxAlign regs) regs 0 symtabDataSize 1 i hi
  · simpa [patchHeaders] using layoutLoop_payloadSize (maxAlign regs) regs 0 symtabDataSize 1

/-- Witness for `payload_layout` at the concrete two-resource registry. -/
theorem payload_layout_witness :
    witRegs ≠ [] ∧ 1 < witRegs.length ∧
    (((patchHeaders witRegs).resources[1]?).map Resource.payloadOffset) =
      some (some (gapSumUpTo (maxAlign witRegs) witRegs 1)) ∧
    (patchHeaders witRegs).rodataSize = sumWithGaps (maxAlign witRegs) witRegs :=
  ⟨by decide, by decide,
   (payload_layout witRegs (by decide)).1 1 (by decide),
   (payload_layout witRegs (by decide)).2⟩

/-- C5, counterexample to "six fixed entries": the static `symtabData` array
has seven entries, so the symbol-table size of the empty registry is
7 * sizeof(Sym), not 6 * sizeof(Sym). -/
theorem symtab_six_counterexample :
    (patchHeaders ([] : List Resource)).symtabSize = 7 * symEntrySize ∧
    ¬ ((patchHeaders ([] : List Resource)).symtabSize =
        (6 + ([] : List Resource).length) * symEntrySize) := by
  decide

/-- C5 (amended): for every registry with N registered resources the computed
symbol-table section size equals the size of exactly seven fixed local
symbol entries (the undefined symbol, the source-file symbol, and one
section symbol each for .text, .data, .bss, .rodata and .comment) plus
exactly N additional entries, one per registered resource whether active or
not. -/
theorem symtab_size_formula (regs : List Resource) :
    (patchHeaders regs).symtabSize = (7 + regs.length) * symEntrySize := by
  rw [patchHeaders_symtabSize]
  rw [show symtabDataSize = 7 * symEntrySize from by norm_num [symtabDataSize, symtabData]]
  ring

/-- C6: for every registry (symbol-name lengths include the NUL, so they are
positive), after `patchHeaders` the `strtabOffset` cached in the i-th
resource equals 1 plus the sum of the `symbolSize` values of all preceding
resources, these offsets are strictly increasing starting at 1, and
`strtabHeader.sh_size` equals 1 plus the sum of all `symbolSize` values. -/
theorem strtab_layout (regs : List Resource) (hpos : ∀ r ∈ regs, 0 < r.symbolSize) :
    (∀ i, i < regs.length →
      (((patchHeaders regs).resources[i]?).map Resource.strtabOffset) =
        some (some (1 + strSumUpTo regs i))) ∧
    (∀ i j, i < j → j < regs.length →
      1 + strSumUpTo regs i < 1 + strSumUpTo regs j) ∧
    (patchHeaders regs).strtabSize = 1 + (regs.map (fun r => r.symbolSize)).sum := by
  refine ⟨?_, ?_, patchHeaders_strtabSize regs⟩
  · intro i hi
    simpa [patchHeaders] using
      layoutLoop_strtabOffset (maxAlign regs) regs 0 symtabDataSize 1 i hi
  · intro i j hij hj
    have hposL : ∀ x ∈ regs.map (fun r => r.symbolSize), 0 < x := by
      intro x hx
      obtain ⟨r, hr, rfl⟩ := List.mem_map.mp hx
      exact hpos r hr
    have hjlen : j ≤ (regs.map (fun r => r.symbolSize)).length := by
      rw [List.length_map]; omega
    have := sumTake_lt (regs.map (fun r => r.symbolSize)) hposL j hjlen i hij
    unfold strSumUpTo
    omega

/-- Witness for `strtab_layout` at the concrete two-resource registry. -/
theorem strtab_layout_witness :
    (((patchHeaders witRegs).resources[0]?).map Resource.strtabOffset) =
      some (some (1 + strSumUpTo witRegs 0)) ∧
    (1 + strSumUpTo witRegs 0 < 1 + strSumUpTo witRegs 1) ∧
    (patchHeaders witRegs).strtabSize = 1 + (witRegs.map (fun r => r.symbolSize)).sum :=
  ⟨(strtab_layout witRegs (by decide)).1 0 (by decide),
   (strtab_layout witRegs (by decide)).2.1 0 1 (by decide) (by decide),
   (strtab_layout witRegs (by decide)).2.2⟩

/-- C4, counterexample to "still writes the padding gap": in the registry
with sizes [3, 1] the alignment is 4 and the gap after the first resource is
1 byte, but when the first resource's file fails to open the emitter writes
only the second resource's byte — the padding gap is skipped along with the
payload. -/
theorem late_failure_padding_counterexample :
    maxAlign c4regs = 4 ∧
    padding (maxAlign c4regs) 3 = 1 ∧
    ((writeFiles c4fopen (maxAlign c4regs) c4regs).1.map (fun r => r.ignore)) =
      [some true, some false] ∧
    (writeFiles c4fopen (maxAlign c4regs) c4regs).2 = ['x'] ∧
    ¬ ((writeFiles c4fopen (maxAlign c4regs) c4regs).2 =
        List.replicate (padding (maxAlign c4regs) 3) nulChar ++ ['x']) := by
  decide

/-- C4 (amended): when a resource's source file fails to open during
emission the emitter marks it inactive and skips its payload bytes and the
inter-resource padding gap that follows it — each resource contributes
`resourceOutput`, which is empty on failure — while the symbol-table and
string-table section sizes computed at layout are unchanged by the marking. -/
theorem writeFiles_late_failure (fopen : String → Option (List Char)) (a : Nat)
    (l : List Resource) :
    (writeFiles fopen a l).1 =
      l.map (fun r => { r with ignore := some (fopen r.filename).isNone }) ∧
    (writeFiles fopen a l).2 = outputsOf fopen a l ∧
    (patchHeaders ((writeFiles fopen a l).1)).symtabSize = (patchHeaders l).symtabSize ∧
    (patchHeaders ((writeFiles fopen a l).1)).strtabSize = (patchHeaders l).strtabSize := by
  have hmain : ∀ l' : List Resource,
      (writeFiles fopen a l').1 =
        l'.map (fun r => { r with ignore := some (fopen r.filename).isNone }) ∧
      (writeFiles fopen a l').2 = outputsOf fopen a l' := by
    intro l'
    induction l' with
    | nil => exact ⟨rfl, rfl⟩
    | cons r rest ih =>
        cases hf : fopen r.filename with
        | none =>
            constructor
            · simp [writeFiles, hf, ih.1]
            · simp [writeFiles, outputsOf, resourceOutput, hf, ih.2]
        | some data =>
            constructor
            · simp [writeFiles, hf, ih.1]
            · simp [writeFiles, outputsOf, resourceOutput, hf, ih.2]
  refine ⟨(hmain l).1, (hmain l).2, ?_, ?_⟩
  · rw [(hmain l).1, patchHeaders_symtabSize, patchHeaders_symtabSize, List.length_map]
  · rw [(hmain l).1, patchHeaders_strtabSize, patchHeaders_strtabSize, List.map_map]
    rfl

end Elfrc

namespace Elfrc

lemma lineInv_congr {s s' : PState} (h : LineInv s) (he : s'.error = s.error)
    (hl : s'.lineno = s.lineno) (hr : s'.resources = s.resources) : LineInv s' := by
  obtain ⟨h1, h2⟩ := h
  constructor
  · intro hn
    rw [hl, hr]
    exact h1 (by rw [← he]; exact hn)
  · intro e he2 n hn
    rw [hr]
    exact h2 e (by rw [← he]; exact he2) n hn

lemma lineInv_err (s : PState) (e' : PError) (hlen : s.lineno = s.resources.length)
    (hline : ∀ n, PError.lineOf e' = some n → n = s.lineno) :
    LineInv { s with error := some e' } := by
  constructor
  · intro hcon; simp at hcon
  · intro e he n hn
    have hee : e' = e := by simpa using he
    subst hee
    exact (hline n hn).trans hlen

lemma parseStep_lineInv (env : String → Option Nat) (c : Char) (s : PState)
    (h : LineInv s) : LineInv (parseStep env s c) := by
  obtain ⟨h1, h2⟩ := h
  unfold parseStep
  split
  · exact ⟨h1, h2⟩
  · next herr =>
      have he : s.error = none := by
        cases hcase : s.error with
        | none => rfl
        | some e => rw [hcase] at herr; simp at herr
      have hlen : s.lineno = s.resources.length := h1 he
      split
      · split
        · exact lineInv_congr ⟨h1, h2⟩ rfl rfl rfl
        · split
          · exact lineInv_err s _ hlen (by intro n hn; simp [PError.lineOf] at hn; omega)
          · split
            · exact lineInv_congr ⟨h1, h2⟩ rfl rfl rfl
            · exact lineInv_err s _ hlen (by intro n hn; simp [PError.lineOf] at hn; omega)
      · split
        · exact lineInv_congr ⟨h1, h2⟩ rfl rfl rfl
        · split
          · exact lineInv_err s _ hlen (by intro n hn; simp [PError.lineOf] at hn; omega)
          · split
            · exact lineInv_congr ⟨h1, h2⟩ rfl rfl rfl
            · exact lineInv_err s _ hlen (by intro n hn; simp [PError.lineOf] at hn; omega)
      · split
        · split
          · exact lineInv_err s _ hlen (by intro n hn; simp [PError.lineOf] at hn; omega)
          · constructor
            · intro _
              simp [registerResource, hlen]
            · intro e he2 n hn
              simp [he] at he2
        · split
          · exact lineInv_congr ⟨h1, h2⟩ rfl rfl rfl
          · exact lineInv_err s _ hlen (by intro n hn; simp [PError.lineOf] at hn; omega)

lemma parseData_lineInv (env : String → Option Nat) :
    ∀ (l : List Char) (s : PState), LineInv s → LineInv (parseResourceFileData env s l) := by
  intro l
  induction l with
  | nil => intro s h; simpa [parseResourceFileData] using h
  | cons c cs ih =>
      intro s h
      have h2 := parseStep_lineInv env c s h
      simpa [parseResourceFileData, List.foldl_cons] using ih (parseStep env s c) h2

lemma initState_lineInv : LineInv initState := by
  constructor
  · intro _; rfl
  · intro e he n hn
    simp [initState] at he

lemma parseEof_line (env : String → Option Nat) (s : PState) (h : LineInv s) :
    ∀ e, (parseResourceEof env s).error = some e →
      ∀ n, PError.lineOf e = some n → n = (parseResourceEof env s).resources.length := by
  obtain ⟨h1, h2⟩ := h
  unfold parseResourceEof
  split
  · exact h2
  · next herr =>
      have he : s.error = none := by
        cases hcase : s.error with
        | none => rfl
        | some e => rw [hcase] at herr; simp at herr
      have hlen : s.lineno = s.resources.length := h1 he
      split
      · intro e he2 n hn
        have hee : PError.eofExpectingSymbol = e := by simpa using he2
        subst hee
        simp [PError.lineOf] at hn
      · intro e he2 n hn
        have hee : PError.eofExpectingFilename = e := by simpa using he2
        subst hee
        simp [PError.lineOf] at hn
      · split
        · intro e he2 n hn
          have hee : PError.statFailed s.lineno (cstr s.curFilename) = e := by simpa using he2
          subst hee
          simp [PError.lineOf] at hn
          show n = s.resources.length
          omega
        · intro e he2 n hn
          simp [he] at he2

lemma parseData_append (env : String → Option Nat) (s : PState) (c1 c2 : List Char) :
    parseResourceFileData env s (c1 ++ c2) =
      parseResourceFileData env (parseResourceFileData env s c1) c2 := by
  simp [parseResourceFileData]

lemma feedChunks_join (env : String → Option Nat) :
    ∀ (chunks : List (List Char)) (s : PState),
      feedChunks env s chunks = parseResourceFileData env s chunks.flatten := by
  intro chunks
  induction chunks with
  | nil => intro s; simp [feedChunks, parseResourceFileData]
  | cons c cs ih =>
      intro s
      rw [show feedChunks env s (c :: cs) = feedChunks env (parseResourceFileData env s c) cs
        from rfl]
      rw [ih, List.flatten_cons, parseData_append]

/-- C7: feeding the parser the same logical byte stream split into chunks in
any two ways (size-1 chunks, one whole-input chunk, arbitrary irregular
chunks), followed by the end-of-input signal, produces identical results —
the same resulting resource registry (or the same fatal diagnostic). -/
theorem parse_chunking_invariant (env : String → Option Nat)
    (c1 c2 : List (List Char)) (h : c1.flatten = c2.flatten) :
    loadResources env c1 = loadResources env c2 := by
  unfold loadResources
  rw [feedChunks_join, feedChunks_join, h]

/-- Witness for `parse_chunking_invariant`: size-1 chunks versus one chunk. -/
theorem parse_chunking_invariant_witness :
    ([['t'], ['x']] : List (List Char)).flatten = ([['t', 'x']] : List (List Char)).flatten ∧
    loadResources noFiles [['t'], ['x']] = loadResources noFiles [['t', 'x']] :=
  ⟨rfl, parse_chunking_invariant noFiles [['t'], ['x']] [['t', 'x']] rfl⟩

/-- C1 (code bug): when the end-of-input signal arrives in ReadType state
(here: the empty manifest) or in ReadSymbol state (here: a manifest ending
inside the symbol field), `parseResourceFileData(0,0)` reports a fatal parse
error, but `loadResources` discards that return value and reports success,
so the run proceeds to layout and emission with a zero exit status. -/
theorem loadResources_ignores_eof_error :
    loadResources noFiles [] = LoadResult.ok [] ∧
    (parseResourceEof noFiles initState).error = some PError.eofExpectingSymbol ∧
    loadResources noFiles [String.toList ("binary\tA")] = LoadResult.ok [] ∧
    (parseResourceEof noFiles
        (feedChunks noFiles initState [String.toList ("binary\tA")])).error =
      some PError.eofExpectingFilename := by
  decide

/-- C9, counterexample to 1-based numbering: a newline while reading the kind
field of the very first manifest line is diagnosed with line number 0, not 1. -/
theorem first_line_reported_zero :
    (parseAll noFiles [['x', '\n']]).error = some (PError.newlineInType 0) ∧
    PError.lineOf (PError.newlineInType 0) ≠ some 1 := by
  decide

/-- C9 (amended): every parse diagnostic that prints a line number prints
the 0-based line number of the offending record — the number of records
completed before the error — so an error on the first manifest line is
reported as line 0. -/
theorem error_lineno_counts_records (env : String → Option Nat)
    (chunks : List (List Char)) :
    ∀ e, (parseAll env chunks).error = some e →
      ∀ n, PError.lineOf e = some n → n = (parseAll env chunks).resources.length := by
  have hinv : LineInv (feedChunks env initState chunks) := by
    rw [feedChunks_join]
    exact parseData_lineInv env chunks.flatten initState initState_lineInv
  exact parseEof_line env (feedChunks env initState chunks) hinv

/-- Witness for `error_lineno_counts_records` at a first-line error. -/
theorem error_lineno_witness :
    (parseAll noFiles [['x', '\n']]).error = some (PError.newlineInType 0) ∧
    PError.lineOf (PError.newlineInType 0) = some 0 ∧
    0 = (parseAll noFiles [['x', '\n']]).resources.length :=
  ⟨by decide, by decide,
   error_lineno_counts_records noFiles [['x', '\n']] (PError.newlineInType 0)
     (by decide) 0 (by decide)⟩

/-- C10 (code bug): characters are accepted into the kind buffer while its
length is strictly below the capacity 32, so the length can reach 32; a tab
then writes the terminating NUL at index 32 of the 32-byte buffer — the
write index equals the capacity instead of being strictly below it (the
symbol and filename buffers have the same off-by-one). -/
theorem terminator_write_out_of_bounds :
    (parseResourceFileData noFiles initState (List.replicate 32 ('a'))).error = none ∧
    termWrite (parseResourceFileData noFiles initState (List.replicate 32 ('a'))) '\t' =
      some (curTypeCap, curTypeCap) ∧
    ¬ (curTypeCap < curTypeCap) := by
  decide

/-- C8 (code bug): `registerResource` never initializes the `ignore` flag of
the node it creates (modeled as `none`), and during emission `writeFiles`
assigns the flag on success (to "included") as well as on failure — the
flag is neither set to "included" at registration time nor modified only by
the failure path. -/
theorem ignore_flag_uninitialized :
    ((registerResource ResType.BINARY (['A']) fnF 1 []).map (fun r => r.ignore)) = [none] ∧
    ((writeFiles allEmpty 1 (registerResource ResType.BINARY (['A']) fnF 1 [])).1.map
      (fun r => r.ignore)) = [some false] := by
  decide

end Elfrc
